import Mathlib

/-!
Shallow embedding of `main.py` (hyperliquid_arb): a funding-rate arbitrage
bot.  Python floats are modelled as rationals, Python dicts (insertion
ordered, key-unique) as association lists with an update-in-place insert,
and network responses as explicit inputs.  Exceptions that the Python code
catches are modelled by the value the surrounding handler produces.
-/

namespace HyperliquidArb

/-- A Python dict with string keys: association list, unique keys. -/
abbrev Dict (α : Type) := List (String × α)

/-- `d[k]` lookup: first binding wins (keys are unique in practice). -/
def dictGet? {α : Type} (m : Dict α) (k : String) : Option α :=
  (m.find? (fun p => p.1 = k)).map (fun p => p.2)

/-- `d[k] = v`: replace in place when the key exists, else append
(Python dict assignment semantics, insertion order preserved). -/
def dictInsert {α : Type} : Dict α → String → α → Dict α
  | [], k, v => [(k, v)]
  | p :: rest, k, v =>
    if p.1 = k then (k, v) :: rest else p :: dictInsert rest k v

/-- The `Market` dataclass of `main.py` (floats as `ℚ`). -/
structure Market where
  symbol : String
  perp_asset_id : ℕ
  spot_asset_id : ℕ
  funding_rate : ℚ
  mark_price : ℚ
  size_decimals : ℕ
deriving Repr, DecidableEq

/-- One entry of the perp metadata universe: `{'name': ..., 'szDecimals': ...}`. -/
structure PerpMeta where
  name : String
  szDecimals : ℕ
deriving Repr, DecidableEq

/-- One entry of the spot metadata universe: `{'name': 'BASE/QUOTE', 'index': ...}`. -/
structure SpotMeta where
  name : String
  index : ℕ
deriving Repr, DecidableEq

/-- The characters of a spot symbol before its first `'/'`. -/
def baseAssetChars : List Char → List Char
  | [] => []
  | c :: cs => if c = '/' then [] else c :: baseAssetChars cs

/-- Python `s.split('/')[0]`: the base-asset component of a spot symbol
(the whole symbol when it contains no `'/'`). -/
def baseAsset (s : String) : String := String.mk (baseAssetChars s.data)

/-- The inner loop of `initialize_markets`: the first spot entry whose
base asset equals the perp symbol (`break` after the first match). -/
def findSpot (spots : List SpotMeta) (symbol : String) : Option SpotMeta :=
  spots.find? (fun sp => baseAsset sp.name = symbol)

/-- One step of `initialize_markets`: process perp `p` at catalog index `i`. -/
def initStep (spots : List SpotMeta) (acc : Dict Market) (i : ℕ) (p : PerpMeta) :
    Dict Market :=
  match findSpot spots p.name with
  | some sp =>
      dictInsert acc p.name
        { symbol := p.name, perp_asset_id := i, spot_asset_id := 10000 + sp.index,
          funding_rate := 0, mark_price := 0, size_decimals := p.szDecimals }
  | none => acc

/-- The `for perp_idx, perp in enumerate(...)` loop of `initialize_markets`,
with `i` the index of the head of the remaining perp list. -/
def initMarketsAux (spots : List SpotMeta) : List PerpMeta → ℕ → Dict Market → Dict Market
  | [], _, acc => acc
  | p :: ps, i, acc => initMarketsAux spots ps (i + 1) (initStep spots acc i p)

/-- `HyperliquidFundingArb.initialize_markets`, with the two metadata
responses as inputs: builds the `self.markets` dict. -/
def initialize_markets (perps : List PerpMeta) (spots : List SpotMeta) : Dict Market :=
  initMarketsAux spots perps 0 []

/-- Per-instrument context from `metaAndAssetCtxs`: `{'funding': ..., 'markPx': ...}`. -/
structure Ctx where
  funding : ℚ
  markPx : ℚ
deriving Repr, DecidableEq

/-- One opportunity dict built by `get_funding_opportunities`. -/
structure Opp where
  symbol : String
  funding_rate : ℚ
  mark_price : ℚ
  market : Market
deriving Repr, DecidableEq

/-- `float(ctx['funding']) * 365 * 100`: the annualization of a raw
per-period funding rate, in percent units. -/
def annualize (r : ℚ) : ℚ := r * 365 * 100

/-- The body of the `for idx, ctx in enumerate(contexts[1])` loop:
update each known market in place and collect the opportunity dicts,
skipping snapshot symbols absent from the catalog. -/
def processSnapshot : Dict Market → List (String × Ctx) → Dict Market × List Opp
  | ms, [] => (ms, [])
  | ms, (sym, ctx) :: rest =>
    match dictGet? ms sym with
    | none => processSnapshot ms rest
    | some mkt =>
      let mkt' := { mkt with funding_rate := annualize ctx.funding,
                             mark_price := ctx.markPx }
      let r := processSnapshot (dictInsert ms sym mkt') rest
      (r.1, ⟨sym, mkt'.funding_rate, mkt'.mark_price, mkt'⟩ :: r.2)

/-- The sort key comparison of line 116: descending absolute funding rate
(`sort(key=lambda x: abs(x['funding_rate']), reverse=True)`, stable). -/
def oppLe (a b : Opp) : Bool := |b.funding_rate| ≤ |a.funding_rate|

/-- `get_funding_opportunities`.  `fetch = none` models a transport or
parse failure of the `/info` request (the `except` clause returns `[]`).
A snapshot whose context list is longer than its universe list raises
`IndexError` after the aligned prefix was already processed in place;
the handler again returns `[]`.  Returns the updated markets dict and
the opportunity list. -/
def get_funding_opportunities (markets : Dict Market)
    (fetch : Option (List String × List Ctx)) : Dict Market × List Opp :=
  match fetch with
  | none => (markets, [])
  | some (names, ctxs) =>
    let r := processSnapshot markets (names.zip ctxs)
    if ctxs.length ≤ names.length then (r.1, r.2.mergeSort oppLe) else (r.1, [])

/-- Round to the nearest integer, ties to even: the rounding of Python's
fixed-point `format` (round-half-even on the decimal digit). -/
def roundHalfEven (x : ℚ) : ℤ :=
  let f := ⌊x⌋
  if x - f < 1/2 then f
  else if 1/2 < x - f then f + 1
  else if f % 2 = 0 then f else f + 1

/-- `f"{token_amount:.{market.size_decimals}f}"`: the order size rounded
to `d` decimal places, kept as the rational value the string denotes. -/
def formatAmount (x : ℚ) (d : ℕ) : ℚ := (roundHalfEven (x * 10 ^ d) : ℚ) / 10 ^ d

/-- The order dict passed to `_place_order` (prices and sizes are decimal
strings in the source; their numeric values are kept). -/
structure OrderRequest where
  asset_id : ℕ
  is_buy : Bool
  price : ℚ
  size : ℚ
deriving Repr, DecidableEq

/-- Outcome of `_place_order`: `fail` is the `None` returned when the
HTTP submission raises (transport failure); `resp st` is a parsed
response dict, `st` the value of its `'status'` key (absent ⇒ `none`). -/
inductive OrderResult where
  | fail
  | resp (status : Option String)
deriving Repr, DecidableEq

/-- Configuration of `HyperliquidFundingArb.__init__`. -/
structure Config where
  min_funding_rate : ℚ
  position_size_usd : ℚ
  max_slippage : ℚ
deriving Repr, DecidableEq

/-- The defaults used by `main()`: `min_funding_rate=0.05`,
`position_size_usd=1000`, `max_slippage=0.001`. -/
def defaultConfig : Config :=
  { min_funding_rate := 5/100, position_size_usd := 1000, max_slippage := 1/1000 }

/-- The spot-leg order of `execute_funding_arb`: buy at
`mark_price * (1 + max_slippage)` for the formatted amount. -/
def spotRequest (cfg : Config) (market : Market) : OrderRequest :=
  { asset_id := market.spot_asset_id, is_buy := true,
    price := market.mark_price * (1 + cfg.max_slippage),
    size := formatAmount (cfg.position_size_usd / market.mark_price) market.size_decimals }

/-- The perp-leg order of `execute_funding_arb`: sell at
`mark_price * (1 - max_slippage)` for the same formatted amount. -/
def perpRequest (cfg : Config) (market : Market) : OrderRequest :=
  { asset_id := market.perp_asset_id, is_buy := false,
    price := market.mark_price * (1 - cfg.max_slippage),
    size := formatAmount (cfg.position_size_usd / market.mark_price) market.size_decimals }

/-- The `_emergency_close(market.spot_asset_id, formatted_amount, True)`
order: opposite side (`not True`), price string `"0"`, same size. -/
def closeRequest (cfg : Config) (market : Market) : OrderRequest :=
  { asset_id := market.spot_asset_id, is_buy := false, price := 0,
    size := formatAmount (cfg.position_size_usd / market.mark_price) market.size_decimals }

/-- The position dict stored in `self.active_positions` (the recorded
`amount` is the unformatted `token_amount`). -/
structure Position where
  entry_time : ℕ
  funding_rate : ℚ
  mark_price : ℚ
  amount : ℚ
  market : Market
deriving Repr, DecidableEq

/-- `execute_funding_arb`.  `place` is the exchange's response to each
submitted order; `now` stands for `datetime.now()`.  Returns the boolean
result, the orders submitted in sequence, and the updated ledger.
`mark_price = 0` raises `ZeroDivisionError`, caught by the outer handler
(returns `False`, nothing submitted).  When `place` yields `fail`
(Python `None`), the unguarded `.get('status')` raises `AttributeError`,
also caught by the outer handler: the call fails, and in the perp case
no emergency close is reached. -/
def execute_funding_arb (cfg : Config) (positions : Dict Position) (market : Market)
    (funding_rate : ℚ) (place : OrderRequest → OrderResult) (now : ℕ) :
    Bool × List OrderRequest × Dict Position :=
  if market.mark_price = 0 then (false, [], positions)
  else
    match place (spotRequest cfg market) with
    | .fail => (false, [spotRequest cfg market], positions)
    | .resp st =>
      if st = some "ok" then
        match place (perpRequest cfg market) with
        | .fail => (false, [spotRequest cfg market, perpRequest cfg market], positions)
        | .resp pst =>
          if pst = some "ok" then
            (true, [spotRequest cfg market, perpRequest cfg market],
              dictInsert positions market.symbol
                { entry_time := now, funding_rate := funding_rate,
                  mark_price := market.mark_price,
                  amount := cfg.position_size_usd / market.mark_price,
                  market := market })
          else
            (false, [spotRequest cfg market, perpRequest cfg market,
                     closeRequest cfg market], positions)
      else (false, [spotRequest cfg market], positions)

/-- The `for opp in opportunities` loop of `main()` (lines 269–282):
threads the ledger through the hedge attempts.  `acc` collects, per
attempt, the symbol hedged and the ledger state at the moment
`execute_funding_arb` was invoked. -/
def loopGo (cfg : Config) (place : OrderRequest → OrderResult) (now : ℕ) :
    Dict Position → List Opp → List (String × Dict Position) →
    Dict Position × List (String × Dict Position)
  | pos, [], acc => (pos, acc)
  | pos, opp :: rest, acc =>
    if cfg.min_funding_rate ≤ |opp.funding_rate| ∧ dictGet? pos opp.symbol = none then
      let r := execute_funding_arb cfg pos opp.market opp.funding_rate place now
      loopGo cfg place now r.2.2 rest (acc ++ [(opp.symbol, pos)])
    else loopGo cfg place now pos rest acc

/-- The per-cycle opportunity scan of `main()`: hedge every opportunity
at or above the threshold whose symbol has no open position. -/
def loopBody (cfg : Config) (positions : Dict Position) (opps : List Opp)
    (place : OrderRequest → OrderResult) (now : ℕ) :
    Dict Position × List (String × Dict Position) :=
  loopGo cfg place now positions opps []

/-- One full cycle of the `while True` loop of `main()`: fetch and rank
opportunities, then — unless the list is empty, in which case the loop
logs and sleeps — scan them for hedges.  Returns the updated markets,
the updated ledger, and the attempts made. -/
def cycle (cfg : Config) (markets : Dict Market) (positions : Dict Position)
    (fetch : Option (List String × List Ctx)) (place : OrderRequest → OrderResult)
    (now : ℕ) : Dict Market × Dict Position × List (String × Dict Position) :=
  let r := get_funding_opportunities markets fetch
  if r.2.isEmpty then (r.1, positions, [])
  else
    let b := loopBody cfg positions r.2 place now
    (r.1, b.1, b.2)

/-! ### Dictionary lemmas -/

theorem dictGet?_cons {α : Type} (p : String × α) (rest : Dict α) (k : String) :
    dictGet? (p :: rest) k = if p.1 = k then some p.2 else dictGet? rest k := by
  by_cases h : p.1 = k <;> simp [dictGet?, List.find?, h]

theorem dictGet?_insert {α : Type} (m : Dict α) (k k' : String) (v : α) :
    dictGet? (dictInsert m k v) k' = if k' = k then some v else dictGet? m k' := by
  induction m with
  | nil =>
    by_cases h : k' = k <;> simp [dictInsert, dictGet?_cons, dictGet?, h, eq_comm]
  | cons p rest ih =>
    simp only [dictInsert]
    by_cases hp : p.1 = k
    · rw [if_pos hp, dictGet?_cons, dictGet?_cons]
      by_cases h : k' = k
      · simp [h]
      · have hk : ¬k = k' := fun hc => h hc.symm
        have hp1 : ¬p.1 = k' := fun hc => hk (hp.symm.trans hc)
        simp [h, hk, hp1]
    · rw [if_neg hp, dictGet?_cons, ih, dictGet?_cons]
      by_cases h : k' = k
      · have h2 : ¬p.1 = k' := fun hc => hp (hc.trans h)
        rw [if_neg h2, if_pos h, if_pos h]
      · by_cases h2 : p.1 = k' <;> simp [h, h2]

theorem mem_fst_dictInsert {α : Type} (m : Dict α) (k x : String) (v : α) :
    x ∈ (dictInsert m k v).map Prod.fst ↔ x ∈ m.map Prod.fst ∨ x = k := by
  induction m with
  | nil => simp [dictInsert, eq_comm]
  | cons p rest ih =>
    simp only [dictInsert]
    by_cases hp : p.1 = k
    · rw [if_pos hp]
      subst hp
      simp only [List.map_cons, List.mem_cons]
      tauto
    · rw [if_neg hp]
      simp only [List.map_cons, List.mem_cons, ih]
      tauto

theorem nodup_dictInsert {α : Type} (m : Dict α) (k : String) (v : α)
    (h : (m.map Prod.fst).Nodup) : ((dictInsert m k v).map Prod.fst).Nodup := by
  induction m with
  | nil => simp [dictInsert]
  | cons p rest ih =>
    simp only [dictInsert]
    by_cases hp : p.1 = k
    · rw [if_pos hp]
      simp only [List.map_cons, List.nodup_cons] at h ⊢
      exact ⟨hp ▸ h.1, h.2⟩
    · rw [if_neg hp]
      simp only [List.map_cons, List.nodup_cons] at h ⊢
      refine ⟨fun hc => ?_, ih h.2⟩
      rcases (mem_fst_dictInsert rest k p.1 v).1 hc with h1 | h2
      · exact h.1 h1
      · exact hp h2

/-! ### Market-catalog lemmas (for `initialize_markets`) -/

theorem initMarketsAux_not_mem (spots : List SpotMeta) (ps : List PerpMeta)
    (i : ℕ) (acc : Dict Market) (sym : String)
    (h : sym ∉ ps.map PerpMeta.name) :
    dictGet? (initMarketsAux spots ps i acc) sym = dictGet? acc sym := by
  induction ps generalizing i acc with
  | nil => rfl
  | cons p rest ih =>
    simp only [List.map_cons, List.mem_cons, not_or] at h
    rw [initMarketsAux, ih _ _ h.2]
    simp only [initStep]
    cases hf : findSpot spots p.name with
    | none => rfl
    | some sp => rw [dictGet?_insert, if_neg h.1]

theorem initMarketsAux_found (spots : List SpotMeta) (ps : List PerpMeta)
    (i j : ℕ) (acc : Dict Market) (p : PerpMeta) (sp : SpotMeta)
    (hnd : (ps.map PerpMeta.name).Nodup)
    (hj : ps[j]? = some p) (hf : findSpot spots p.name = some sp) :
    dictGet? (initMarketsAux spots ps i acc) p.name =
      some { symbol := p.name, perp_asset_id := i + j, spot_asset_id := 10000 + sp.index,
             funding_rate := 0, mark_price := 0, size_decimals := p.szDecimals } := by
  induction ps generalizing i j acc with
  | nil => simp at hj
  | cons q rest ih =>
    simp only [List.map_cons, List.nodup_cons] at hnd
    cases j with
    | zero =>
      simp only [List.getElem?_cons_zero, Option.some.injEq] at hj
      subst hj
      rw [initMarketsAux, initMarketsAux_not_mem _ _ _ _ _ hnd.1]
      simp [initStep, hf, dictGet?_insert]
    | succ j' =>
      simp only [List.getElem?_cons_succ] at hj
      rw [initMarketsAux]
      have := ih (i + 1) j' (initStep spots acc i q) hnd.2 hj
      rwa [show i + 1 + j' = i + (j' + 1) by omega] at this

theorem initMarketsAux_no_spot (spots : List SpotMeta) (ps : List PerpMeta)
    (i : ℕ) (acc : Dict Market) (p : PerpMeta)
    (hnd : (ps.map PerpMeta.name).Nodup)
    (hp : p ∈ ps) (hf : findSpot spots p.name = none) :
    dictGet? (initMarketsAux spots ps i acc) p.name = dictGet? acc p.name := by
  induction ps generalizing i acc with
  | nil => simp at hp
  | cons q rest ih =>
    simp only [List.map_cons, List.nodup_cons] at hnd
    rcases List.mem_cons.1 hp with rfl | hmem
    · rw [initMarketsAux, initMarketsAux_not_mem _ _ _ _ _ hnd.1]
      simp [initStep, hf]
    · have hqp : q.name ≠ p.name := fun hc =>
        hnd.1 (hc ▸ List.mem_map_of_mem PerpMeta.name hmem)
      rw [initMarketsAux, ih _ _ hnd.2 hmem]
      simp only [initStep]
      cases hq : findSpot spots q.name with
      | none => rfl
      | some sq =>
        have hne : ¬p.name = q.name := fun hc => hqp hc.symm
        rw [dictGet?_insert, if_neg hne]

/-! ### Claim C6: market catalog construction -/

/-- C6: for catalogs with distinct perpetual names, `initialize_markets`
produces exactly one Market per underlying that appears both as a
perpetual name and as the base asset of some spot symbol, with perp
identifier equal to the perpetual's catalog index and spot identifier
equal to 10000 plus the matched (first matching) spot entry's index; an
underlying with no matching spot entry, or a symbol that is no perpetual
name, gets no Market. -/
theorem c6_market_catalog (perps : List PerpMeta) (spots : List SpotMeta)
    (hnd : (perps.map PerpMeta.name).Nodup) :
    (∀ i p, perps[i]? = some p →
        (∀ sp, findSpot spots p.name = some sp →
            dictGet? (initialize_markets perps spots) p.name =
              some { symbol := p.name, perp_asset_id := i,
                     spot_asset_id := 10000 + sp.index,
                     funding_rate := 0, mark_price := 0,
                     size_decimals := p.szDecimals })
      ∧ (findSpot spots p.name = none →
            dictGet? (initialize_markets perps spots) p.name = none))
    ∧ (∀ sym, sym ∉ perps.map PerpMeta.name →
        dictGet? (initialize_markets perps spots) sym = none) := by
  refine ⟨fun i p hip => ⟨fun sp hsp => ?_, fun hnone => ?_⟩, fun sym hsym => ?_⟩
  · have h := initMarketsAux_found spots perps 0 i [] p sp hnd hip hsp
    simpa [initialize_markets] using h
  · have hmem : p ∈ perps := List.getElem?_mem hip
    have h := initMarketsAux_no_spot spots perps 0 [] p hnd hmem hnone
    simpa [initialize_markets, dictGet?] using h
  · have h := initMarketsAux_not_mem spots perps 0 [] sym hsym
    simpa [initialize_markets, dictGet?] using h

/-- Witness for C6 on a concrete pair of catalogs: BTC appears in both
catalogs (spot index 5) and gets spot id 10005 and perp id 0; ETH has no
spot counterpart and gets no Market; SOL is no perpetual, no Market. -/
theorem c6_market_catalog_witness :
    dictGet? (initialize_markets [⟨"BTC", 3⟩, ⟨"ETH", 4⟩] [⟨"SOL/USDC", 2⟩, ⟨"BTC/USDC", 5⟩]) "BTC" =
      some { symbol := "BTC", perp_asset_id := 0, spot_asset_id := 10005,
             funding_rate := 0, mark_price := 0, size_decimals := 3 } ∧
    dictGet? (initialize_markets [⟨"BTC", 3⟩, ⟨"ETH", 4⟩] [⟨"SOL/USDC", 2⟩, ⟨"BTC/USDC", 5⟩]) "ETH" = none ∧
    dictGet? (initialize_markets [⟨"BTC", 3⟩, ⟨"ETH", 4⟩] [⟨"SOL/USDC", 2⟩, ⟨"BTC/USDC", 5⟩]) "SOL" = none := by
  have h := c6_market_catalog [⟨"BTC", 3⟩, ⟨"ETH", 4⟩] [⟨"SOL/USDC", 2⟩, ⟨"BTC/USDC", 5⟩]
    (by decide)
  refine ⟨?_, ?_, ?_⟩
  · exact (h.1 0 ⟨"BTC", 3⟩ (by decide)).1 ⟨"BTC/USDC", 5⟩ (by decide)
  · exact (h.1 1 ⟨"ETH", 4⟩ (by decide)).2 (by decide)
  · exact h.2 "SOL" (by decide)

/-! ### Concrete inputs shared by witnesses and counterexamples -/

/-- A concrete market: BTC, perp id 0, spot id 10005, mark 50000, 3 size decimals. -/
def btcMarket : Market :=
  { symbol := "BTC", perp_asset_id := 0, spot_asset_id := 10005,
    funding_rate := 73/2, mark_price := 50000, size_decimals := 3 }

/-- An exchange that accepts every order. -/
def placeAllOk : OrderRequest → OrderResult := fun _ => .resp (some "ok")

/-- An exchange that rejects every order with a non-ok status. -/
def placeAllReject : OrderRequest → OrderResult := fun _ => .resp (some "err")

/-- An exchange that accepts buys and fails sells at the transport layer:
the spot leg (a buy) is accepted, the perp leg (a sell) makes
`_place_order` return `None`. -/
def placeSpotOkPerpFail : OrderRequest → OrderResult :=
  fun r => if r.is_buy then .resp (some "ok") else .fail

/-- An exchange that accepts buys and rejects sells: the spot leg is
accepted, the perp leg comes back with a non-ok status. -/
def placeSpotOkPerpReject : OrderRequest → OrderResult :=
  fun r => if r.is_buy then .resp (some "ok") else .resp (some "err")

/-! ### Case analysis of the execution engine -/

/-- Exhaustive case analysis of `execute_funding_arb`: zero mark price
(division error), spot leg not accepted, perp transport failure, perp
rejected, or both legs accepted. -/
theorem execute_funding_arb_cases (cfg : Config) (positions : Dict Position)
    (market : Market) (fr : ℚ) (place : OrderRequest → OrderResult) (now : ℕ) :
    (market.mark_price = 0 ∧
      execute_funding_arb cfg positions market fr place now = (false, [], positions)) ∨
    (market.mark_price ≠ 0 ∧ place (spotRequest cfg market) ≠ OrderResult.resp (some "ok") ∧
      execute_funding_arb cfg positions market fr place now =
        (false, [spotRequest cfg market], positions)) ∨
    (market.mark_price ≠ 0 ∧ place (spotRequest cfg market) = OrderResult.resp (some "ok") ∧
      place (perpRequest cfg market) = OrderResult.fail ∧
      execute_funding_arb cfg positions market fr place now =
        (false, [spotRequest cfg market, perpRequest cfg market], positions)) ∨
    (market.mark_price ≠ 0 ∧ place (spotRequest cfg market) = OrderResult.resp (some "ok") ∧
      (∃ pst, place (perpRequest cfg market) = OrderResult.resp pst ∧ pst ≠ some "ok") ∧
      execute_funding_arb cfg positions market fr place now =
        (false, [spotRequest cfg market, perpRequest cfg market, closeRequest cfg market],
          positions)) ∨
    (market.mark_price ≠ 0 ∧ place (spotRequest cfg market) = OrderResult.resp (some "ok") ∧
      place (perpRequest cfg market) = OrderResult.resp (some "ok") ∧
      execute_funding_arb cfg positions market fr place now =
        (true, [spotRequest cfg market, perpRequest cfg market],
          dictInsert positions market.symbol
            { entry_time := now, funding_rate := fr, mark_price := market.mark_price,
              amount := cfg.position_size_usd / market.mark_price, market := market })) := by
  by_cases h0 : market.mark_price = 0
  · exact Or.inl ⟨h0, by simp [execute_funding_arb, h0]⟩
  · cases hs : place (spotRequest cfg market) with
    | fail =>
      refine Or.inr (Or.inl ⟨h0, by simp [hs], ?_⟩)
      simp [execute_funding_arb, h0, hs]
    | resp st =>
      by_cases hst : st = some "ok"
      · subst hst
        cases hp : place (perpRequest cfg market) with
        | fail =>
          refine Or.inr (Or.inr (Or.inl ⟨h0, rfl, rfl, ?_⟩))
          simp [execute_funding_arb, h0, hs, hp]
        | resp pst =>
          by_cases hpst : pst = some "ok"
          · subst hpst
            refine Or.inr (Or.inr (Or.inr (Or.inr ⟨h0, rfl, rfl, ?_⟩)))
            simp [execute_funding_arb, h0, hs, hp]
          · refine Or.inr (Or.inr (Or.inr (Or.inl ⟨h0, rfl, ⟨pst, rfl, hpst⟩, ?_⟩)))
            simp [execute_funding_arb, h0, hs, hp, hpst]
      · refine Or.inr (Or.inl ⟨h0, ?_, ?_⟩)
        · intro hc
          injection hc with h
          exact hst h
        · simp [execute_funding_arb, h0, hs, hst]

/-! ### Claim C1: position recorded only when both legs are accepted -/

/-- C1: `execute_funding_arb` changes the ledger only when both the spot
and the perp order responses carry status "ok" (and then it returns
success); and whenever the spot order is not acknowledged as accepted,
the call returns failure, leaves the ledger unchanged, and never submits
the perp order. -/
theorem c1_position_requires_both_legs (cfg : Config) (positions : Dict Position)
    (market : Market) (fr : ℚ) (place : OrderRequest → OrderResult) (now : ℕ) :
    ((execute_funding_arb cfg positions market fr place now).2.2 ≠ positions →
        place (spotRequest cfg market) = OrderResult.resp (some "ok") ∧
        place (perpRequest cfg market) = OrderResult.resp (some "ok") ∧
        (execute_funding_arb cfg positions market fr place now).1 = true) ∧
    (place (spotRequest cfg market) ≠ OrderResult.resp (some "ok") →
        (execute_funding_arb cfg positions market fr place now).1 = false ∧
        (execute_funding_arb cfg positions market fr place now).2.2 = positions ∧
        perpRequest cfg market ∉ (execute_funding_arb cfg positions market fr place now).2.1) := by
  rcases execute_funding_arb_cases cfg positions market fr place now with
    ⟨h0, heq⟩ | ⟨h0, hs, heq⟩ | ⟨h0, hs, hp, heq⟩ | ⟨h0, hs, hpst, heq⟩ | ⟨h0, hs, hp, heq⟩ <;>
    rw [heq]
  · exact ⟨fun h => absurd rfl h, fun _ => ⟨rfl, rfl, by simp⟩⟩
  · refine ⟨fun h => absurd rfl h, fun _ => ⟨rfl, rfl, ?_⟩⟩
    simp [spotRequest, perpRequest]
  · exact ⟨fun h => absurd rfl h, fun hcon => absurd hs hcon⟩
  · exact ⟨fun h => absurd rfl h, fun hcon => absurd hs hcon⟩
  · exact ⟨fun _ => ⟨hs, hp, rfl⟩, fun hcon => absurd hs hcon⟩

/-- Witness for C1: with an all-accepting exchange the ledger gains the
BTC entry and both legs were acknowledged; with an all-rejecting
exchange the call fails, the ledger stays empty, and the perp order is
never submitted. -/
theorem c1_position_requires_both_legs_witness :
    (placeAllOk (spotRequest defaultConfig btcMarket) = OrderResult.resp (some "ok") ∧
      placeAllOk (perpRequest defaultConfig btcMarket) = OrderResult.resp (some "ok") ∧
      (execute_funding_arb defaultConfig [] btcMarket (73/2) placeAllOk 0).1 = true) ∧
    ((execute_funding_arb defaultConfig [] btcMarket (73/2) placeAllReject 0).1 = false ∧
      (execute_funding_arb defaultConfig [] btcMarket (73/2) placeAllReject 0).2.2 = [] ∧
      perpRequest defaultConfig btcMarket ∉
        (execute_funding_arb defaultConfig [] btcMarket (73/2) placeAllReject 0).2.1) :=
  ⟨(c1_position_requires_both_legs defaultConfig [] btcMarket (73/2) placeAllOk 0).1
      (by decide),
   (c1_position_requires_both_legs defaultConfig [] btcMarket (73/2) placeAllReject 0).2
      (by decide)⟩

/-! ### Claim C2: emergency unwind on a failed perp leg -/

/-- C2 (divergence witness): when the spot order is accepted but the
perp submission fails at the transport layer (`_place_order` returns
`None`), `execute_funding_arb` returns failure WITHOUT submitting any
emergency-unwind order: only the spot and perp requests were sent, and
no order with price 0 (the unwind) appears.  The unguarded
`perp_order.get('status')` raises `AttributeError` on `None`, the outer
handler swallows it, and `_emergency_close` is never reached — contrary
to the specified guarantee that a single-leg acceptance is always
followed by an unwind attempt. -/
theorem c2_no_unwind_on_perp_transport_failure :
    execute_funding_arb defaultConfig [] btcMarket (73/2) placeSpotOkPerpFail 0 =
      (false, [spotRequest defaultConfig btcMarket, perpRequest defaultConfig btcMarket], []) ∧
    closeRequest defaultConfig btcMarket ∉
      (execute_funding_arb defaultConfig [] btcMarket (73/2) placeSpotOkPerpFail 0).2.1 ∧
    (∀ o ∈ (execute_funding_arb defaultConfig [] btcMarket (73/2) placeSpotOkPerpFail 0).2.1,
      o.price ≠ 0) := by
  have horders : (execute_funding_arb defaultConfig [] btcMarket (73/2) placeSpotOkPerpFail 0).2.1 =
      [spotRequest defaultConfig btcMarket, perpRequest defaultConfig btcMarket] := rfl
  refine ⟨rfl, ?_, ?_⟩
  · rw [horders]
    simp [spotRequest, perpRequest, closeRequest, btcMarket]
  · intro o ho
    rw [horders] at ho
    rcases List.mem_cons.1 ho with rfl | ho2
    · simp [spotRequest, btcMarket, defaultConfig]
      norm_num
    · rcases List.mem_cons.1 ho2 with rfl | ho3
      · simp [perpRequest, btcMarket, defaultConfig]
        norm_num
      · simp at ho3

/-- The rejected-(not transport-failed)-perp part of C2, which the code
does honor: when the spot leg is accepted and the perp order comes back
with a non-ok status, exactly one emergency-unwind order is submitted —
opposite side (`is_buy = false` against the spot buy), the same
formatted quantity as the spot leg, price 0 — and the call returns
failure regardless of the unwind's own outcome. -/
theorem c2_unwind_on_perp_rejection (cfg : Config) (positions : Dict Position)
    (market : Market) (fr : ℚ) (place : OrderRequest → OrderResult) (now : ℕ)
    (h0 : market.mark_price ≠ 0)
    (hs : place (spotRequest cfg market) = OrderResult.resp (some "ok"))
    (pst : Option String)
    (hp : place (perpRequest cfg market) = OrderResult.resp pst)
    (hpst : pst ≠ some "ok") :
    (execute_funding_arb cfg positions market fr place now).2.1 =
      [spotRequest cfg market, perpRequest cfg market, closeRequest cfg market] ∧
    (closeRequest cfg market).is_buy = false ∧
    (spotRequest cfg market).is_buy = true ∧
    (closeRequest cfg market).size = (spotRequest cfg market).size ∧
    (closeRequest cfg market).price = 0 ∧
    (execute_funding_arb cfg positions market fr place now).1 = false ∧
    (execute_funding_arb cfg positions market fr place now).2.2 = positions := by
  rcases execute_funding_arb_cases cfg positions market fr place now with
    ⟨hz, heq⟩ | ⟨_, hne, heq⟩ | ⟨_, _, hpf, heq⟩ | ⟨_, _, _, heq⟩ | ⟨_, _, hpo, heq⟩
  · exact absurd hz h0
  · exact absurd hs hne
  · rw [hp] at hpf
    exact absurd hpf (by simp)
  · rw [heq]
    exact ⟨rfl, rfl, rfl, rfl, rfl, rfl, rfl⟩
  · rw [hp] at hpo
    injection hpo with h
    exact absurd h hpst

/-- Witness for the honored part of C2 at a concrete input: spot
accepted, perp rejected with status "err". -/
theorem c2_unwind_on_perp_rejection_witness :
    (execute_funding_arb defaultConfig [] btcMarket (73/2) placeSpotOkPerpReject 0).2.1 =
      [spotRequest defaultConfig btcMarket, perpRequest defaultConfig btcMarket,
       closeRequest defaultConfig btcMarket] ∧
    (closeRequest defaultConfig btcMarket).is_buy = false ∧
    (spotRequest defaultConfig btcMarket).is_buy = true ∧
    (closeRequest defaultConfig btcMarket).size = (spotRequest defaultConfig btcMarket).size ∧
    (closeRequest defaultConfig btcMarket).price = 0 ∧
    (execute_funding_arb defaultConfig [] btcMarket (73/2) placeSpotOkPerpReject 0).1 = false ∧
    (execute_funding_arb defaultConfig [] btcMarket (73/2) placeSpotOkPerpReject 0).2.2 = [] :=
  c2_unwind_on_perp_rejection defaultConfig [] btcMarket (73/2) placeSpotOkPerpReject 0
    (by decide) (by decide) (some "err") (by decide) (by decide)

/-! ### Claim C3: hedge direction for negative funding -/

/-- C3 counterexample: for a market observed with a NEGATIVE annualized
funding rate (here −10), `execute_funding_arb` still submits a spot BUY
(asset 10005, `is_buy = true`) followed by a perp SELL (asset 0,
`is_buy = false`): the hedge direction is not inverted. -/
theorem c3_counterexample_no_inversion :
    (execute_funding_arb defaultConfig [] btcMarket (-10) placeAllOk 0).2.1.map
        (fun o => (o.asset_id, o.is_buy)) = [(10005, true), (0, false)] := by
  decide

/-- C3 amended: the hedge direction is hardcoded — for every funding
rate, negative included, `execute_funding_arb` submits the spot leg as a
buy and (when it proceeds) the perp leg as a sell; no inversion ever
happens. -/
theorem c3_direction_never_inverts (cfg : Config) (positions : Dict Position)
    (market : Market) (fr : ℚ) (place : OrderRequest → OrderResult) (now : ℕ)
    (h0 : market.mark_price ≠ 0) :
    (execute_funding_arb cfg positions market fr place now).2.1.head? =
      some (spotRequest cfg market) ∧
    (spotRequest cfg market).is_buy = true ∧
    ((execute_funding_arb cfg positions market fr place now).2.1[1]? = none ∨
      (execute_funding_arb cfg positions market fr place now).2.1[1]? =
        some (perpRequest cfg market)) ∧
    (perpRequest cfg market).is_buy = false := by
  rcases execute_funding_arb_cases cfg positions market fr place now with
    ⟨hz, heq⟩ | ⟨_, _, heq⟩ | ⟨_, _, _, heq⟩ | ⟨_, _, _, heq⟩ | ⟨_, _, _, heq⟩
  · exact absurd hz h0
  · rw [heq]
    exact ⟨rfl, rfl, Or.inl rfl, rfl⟩
  · rw [heq]
    exact ⟨rfl, rfl, Or.inr rfl, rfl⟩
  · rw [heq]
    exact ⟨rfl, rfl, Or.inr rfl, rfl⟩
  · rw [heq]
    exact ⟨rfl, rfl, Or.inr rfl, rfl⟩

/-- Witness for the amended C3 at a concrete negative rate. -/
theorem c3_direction_never_inverts_witness :
    (execute_funding_arb defaultConfig [] btcMarket (-10) placeAllOk 0).2.1.head? =
      some (spotRequest defaultConfig btcMarket) ∧
    (spotRequest defaultConfig btcMarket).is_buy = true ∧
    ((execute_funding_arb defaultConfig [] btcMarket (-10) placeAllOk 0).2.1[1]? = none ∨
      (execute_funding_arb defaultConfig [] btcMarket (-10) placeAllOk 0).2.1[1]? =
        some (perpRequest defaultConfig btcMarket)) ∧
    (perpRequest defaultConfig btcMarket).is_buy = false :=
  c3_direction_never_inverts defaultConfig [] btcMarket (-10) placeAllOk 0
    (by decide)

/-- The concrete sizing scenario: 1000 USD at mark price 50000 with 3
size decimals formats to 0.020. -/
theorem formatAmount_scenario : formatAmount ((1000 : ℚ)/50000) 3 = 2/100 := by
  have h1 : ((1000:ℚ)/50000 * 10^3) = 20 := by norm_num
  rw [formatAmount, h1]
  have h2 : roundHalfEven (20:ℚ) = 20 := by
    unfold roundHalfEven
    norm_num
  rw [h2]
  norm_num

/-! ### Claim C7: order sizing and limit prices -/

/-- C7: for a market with positive mark price, the spot leg submitted
first is a buy at limit price `mark_price * (1 + max_slippage)` sized
`position_size_usd / mark_price` rounded to `size_decimals` decimal
places, and — whenever the spot leg is accepted — the perp leg submitted
second is a sell at `mark_price * (1 - max_slippage)` for the same
quantity; with notional 1000, mark price 50000 and precision 3 the
quantity is 0.020. -/
theorem c7_sizing_and_prices (cfg : Config) (positions : Dict Position)
    (market : Market) (fr : ℚ) (place : OrderRequest → OrderResult) (now : ℕ)
    (h0 : 0 < market.mark_price) :
    (execute_funding_arb cfg positions market fr place now).2.1.head? =
      some { asset_id := market.spot_asset_id, is_buy := true,
             price := market.mark_price * (1 + cfg.max_slippage),
             size := formatAmount (cfg.position_size_usd / market.mark_price)
                       market.size_decimals } ∧
    (place (spotRequest cfg market) = OrderResult.resp (some "ok") →
      (execute_funding_arb cfg positions market fr place now).2.1[1]? =
        some { asset_id := market.perp_asset_id, is_buy := false,
               price := market.mark_price * (1 - cfg.max_slippage),
               size := formatAmount (cfg.position_size_usd / market.mark_price)
                         market.size_decimals }) ∧
    formatAmount ((1000 : ℚ) / 50000) 3 = 2/100 := by
  have hne : market.mark_price ≠ 0 := ne_of_gt h0
  rcases execute_funding_arb_cases cfg positions market fr place now with
    ⟨hz, heq⟩ | ⟨_, hno, heq⟩ | ⟨_, _, _, heq⟩ | ⟨_, _, _, heq⟩ | ⟨_, _, _, heq⟩ <;>
    rw [heq]
  · exact absurd hz hne
  · exact ⟨rfl, fun hok => absurd hok hno, formatAmount_scenario⟩
  · exact ⟨rfl, fun _ => rfl, formatAmount_scenario⟩
  · exact ⟨rfl, fun _ => rfl, formatAmount_scenario⟩
  · exact ⟨rfl, fun _ => rfl, formatAmount_scenario⟩

/-- Witness for C7 with the concrete scenario of the spec: notional
1000, mark price 50000, precision 3, accepted legs. -/
theorem c7_sizing_and_prices_witness :
    (execute_funding_arb defaultConfig [] btcMarket (73/2) placeAllOk 0).2.1.head? =
      some { asset_id := btcMarket.spot_asset_id, is_buy := true,
             price := btcMarket.mark_price * (1 + defaultConfig.max_slippage),
             size := formatAmount (defaultConfig.position_size_usd / btcMarket.mark_price)
                       btcMarket.size_decimals } ∧
    (placeAllOk (spotRequest defaultConfig btcMarket) = OrderResult.resp (some "ok") →
      (execute_funding_arb defaultConfig [] btcMarket (73/2) placeAllOk 0).2.1[1]? =
        some { asset_id := btcMarket.perp_asset_id, is_buy := false,
               price := btcMarket.mark_price * (1 - defaultConfig.max_slippage),
               size := formatAmount (defaultConfig.position_size_usd / btcMarket.mark_price)
                         btcMarket.size_decimals }) ∧
    formatAmount ((1000 : ℚ) / 50000) 3 = 2/100 :=
  c7_sizing_and_prices defaultConfig [] btcMarket (73/2) placeAllOk 0 (by decide)

/-! ### Claim C9: fetch failure yields an empty cycle -/

/-- C9: a transport or parse failure of the quote fetch makes
`get_funding_opportunities` return an empty list instead of raising, and
the control-loop cycle attempts no hedge and leaves the state unchanged
for that cycle. -/
theorem c9_fetch_failure_skips_cycle (cfg : Config) (markets : Dict Market)
    (positions : Dict Position) (place : OrderRequest → OrderResult) (now : ℕ) :
    get_funding_opportunities markets none = (markets, []) ∧
    cycle cfg markets positions none place now = (markets, positions, []) :=
  ⟨rfl, rfl⟩

/-! ### Claim C10: ranking is sorted and deterministic -/

/-- C10: the opportunity list returned by `get_funding_opportunities` is
sorted in non-increasing order of the absolute annualized funding rate,
and the function is deterministic (identical input yields identical
output). -/
theorem c10_ranked_descending (markets : Dict Market)
    (fetch : Option (List String × List Ctx)) :
    ((get_funding_opportunities markets fetch).2).Pairwise
      (fun a b => |b.funding_rate| ≤ |a.funding_rate|) ∧
    get_funding_opportunities markets fetch = get_funding_opportunities markets fetch := by
  refine ⟨?_, rfl⟩
  match fetch with
  | none => simp [get_funding_opportunities]
  | some (names, ctxs) =>
    simp only [get_funding_opportunities]
    by_cases h : ctxs.length ≤ names.length
    · rw [if_pos h]
      have htrans : ∀ a b c : Opp, oppLe a b → oppLe b c → oppLe a c := by
        intro a b c hab hbc
        simp only [oppLe, decide_eq_true_eq] at hab hbc ⊢
        exact le_trans hbc hab
      have htotal : ∀ a b : Opp, oppLe a b || oppLe b a := by
        intro a b
        simp only [oppLe, Bool.or_eq_true, decide_eq_true_eq]
        exact le_total _ _
      exact (List.sorted_mergeSort htrans htotal
        ((processSnapshot markets (names.zip ctxs)).2)).imp
        (fun hab => by simpa [oppLe, decide_eq_true_eq] using hab)
    · rw [if_neg h]
      simp

/-! ### Snapshot-processing lemmas (for `get_funding_opportunities`) -/

theorem zip_fst_sublist {α β : Type} (l1 : List α) (l2 : List β) :
    ((l1.zip l2).map Prod.fst).Sublist l1 := by
  induction l1 generalizing l2 with
  | nil => simp
  | cons a as ih =>
    cases l2 with
    | nil => simp
    | cons b bs => simpa using (ih bs).cons₂ a

theorem processSnapshot_not_mem (pairs : List (String × Ctx)) (ms : Dict Market)
    (sym : String) (h : sym ∉ pairs.map Prod.fst) :
    dictGet? (processSnapshot ms pairs).1 sym = dictGet? ms sym := by
  induction pairs generalizing ms with
  | nil => rfl
  | cons p rest ih =>
    obtain ⟨s, c⟩ := p
    simp only [List.map_cons, List.mem_cons, not_or] at h
    rw [processSnapshot]
    cases hg : dictGet? ms s with
    | none => exact ih ms h.2
    | some mkt =>
      simp only
      rw [ih _ h.2, dictGet?_insert, if_neg h.1]

theorem processSnapshot_update (pairs : List (String × Ctx)) (ms : Dict Market)
    (sym : String) (ctx : Ctx) (mkt : Market)
    (hnd : (pairs.map Prod.fst).Nodup)
    (hmem : (sym, ctx) ∈ pairs) (hg : dictGet? ms sym = some mkt) :
    dictGet? (processSnapshot ms pairs).1 sym =
      some { mkt with funding_rate := annualize ctx.funding, mark_price := ctx.markPx } := by
  induction pairs generalizing ms mkt with
  | nil => simp at hmem
  | cons p rest ih =>
    obtain ⟨s, c⟩ := p
    simp only [List.map_cons, List.nodup_cons] at hnd
    rcases List.mem_cons.1 hmem with heq | hmem2
    · injection heq with h1 h2
      subst h1
      subst h2
      rw [processSnapshot, hg]
      simp only
      rw [processSnapshot_not_mem _ _ _ hnd.1, dictGet?_insert, if_pos rfl]
    · have hsym : sym ∈ rest.map Prod.fst := List.mem_map.2 ⟨(sym, ctx), hmem2, rfl⟩
      have hne : s ≠ sym := fun hc => hnd.1 (hc ▸ hsym)
      rw [processSnapshot]
      cases hg2 : dictGet? ms s with
      | none => exact ih _ _ hnd.2 hmem2 hg
      | some m2 =>
        simp only
        refine ih _ _ hnd.2 hmem2 ?_
        rw [dictGet?_insert, if_neg (fun hc => hne hc.symm), hg]

theorem processSnapshot_absent (pairs : List (String × Ctx)) (ms : Dict Market)
    (sym : String) (h : dictGet? ms sym = none) :
    dictGet? (processSnapshot ms pairs).1 sym = none := by
  induction pairs generalizing ms with
  | nil => exact h
  | cons p rest ih =>
    obtain ⟨s, c⟩ := p
    rw [processSnapshot]
    cases hg : dictGet? ms s with
    | none => exact ih ms h
    | some mkt =>
      simp only
      refine ih _ ?_
      rw [dictGet?_insert]
      have hne : ¬sym = s := fun hc => by rw [hc, hg] at h; cases h
      rw [if_neg hne]
      exact h

theorem processSnapshot_opps_known (pairs : List (String × Ctx)) (ms : Dict Market)
    (o : Opp) (h : o ∈ (processSnapshot ms pairs).2) :
    (dictGet? ms o.symbol).isSome := by
  induction pairs generalizing ms with
  | nil => simp [processSnapshot] at h
  | cons p rest ih =>
    obtain ⟨s, c⟩ := p
    rw [processSnapshot] at h
    cases hg : dictGet? ms s with
    | none =>
      rw [hg] at h
      exact ih ms h
    | some mkt =>
      rw [hg] at h
      simp only [List.mem_cons] at h
      rcases h with rfl | h2
      · simp [hg]
      · have h3 := ih _ h2
        rw [dictGet?_insert] at h3
        by_cases hc : o.symbol = s
        · rw [hc, hg]
          rfl
        · rwa [if_neg hc] at h3

/-! ### Claim C8: refresh semantics -/

/-- C8: for a well-formed snapshot with distinct universe names, every
raw rate `r` of a catalog symbol updates that Market in place to
annualized rate `r * 365 * 100` and to the snapshot's mark price;
symbols outside the catalog are ignored: they are never added to the
catalog and produce no opportunity. -/
theorem c8_refresh_annualizes_in_place (markets : Dict Market) (names : List String)
    (ctxs : List Ctx) (hlen : ctxs.length ≤ names.length) (hnd : names.Nodup) :
    (∀ sym ctx, (sym, ctx) ∈ names.zip ctxs →
        ∀ mkt, dictGet? markets sym = some mkt →
          dictGet? (get_funding_opportunities markets (some (names, ctxs))).1 sym =
            some { mkt with funding_rate := annualize ctx.funding,
                            mark_price := ctx.markPx }) ∧
    (∀ sym, dictGet? markets sym = none →
        dictGet? (get_funding_opportunities markets (some (names, ctxs))).1 sym = none) ∧
    (∀ o ∈ (get_funding_opportunities markets (some (names, ctxs))).2,
        (dictGet? markets o.symbol).isSome) := by
  have hget1 : (get_funding_opportunities markets (some (names, ctxs))).1 =
      (processSnapshot markets (names.zip ctxs)).1 := by
    simp only [get_funding_opportunities]
    rw [if_pos hlen]
  have hget2 : (get_funding_opportunities markets (some (names, ctxs))).2 =
      ((processSnapshot markets (names.zip ctxs)).2).mergeSort oppLe := by
    simp only [get_funding_opportunities]
    rw [if_pos hlen]
  have hndz : ((names.zip ctxs).map Prod.fst).Nodup :=
    hnd.sublist (zip_fst_sublist names ctxs)
  refine ⟨fun sym ctx hmem mkt hg => ?_, fun sym hg => ?_, fun o ho => ?_⟩
  · rw [hget1]
    exact processSnapshot_update _ _ _ _ _ hndz hmem hg
  · rw [hget1]
    exact processSnapshot_absent _ _ _ hg
  · rw [hget2] at ho
    have ho2 : o ∈ (processSnapshot markets (names.zip ctxs)).2 :=
      (List.mergeSort_perm _ oppLe).mem_iff.1 ho
    exact processSnapshot_opps_known _ _ _ ho2

/-- Witness for C8: the BTC market gets rate `0.001 * 365 * 100 = 36.5`
and mark price 50000; the unknown snapshot symbol "ETH" stays out of the
catalog and yields no opportunity. -/
theorem c8_refresh_annualizes_in_place_witness :
    dictGet? (get_funding_opportunities
        [("BTC", { symbol := "BTC", perp_asset_id := 0, spot_asset_id := 10005,
                   funding_rate := 0, mark_price := 0, size_decimals := 3 })]
        (some (["BTC", "ETH"], [⟨1/1000, 50000⟩, ⟨1/100, 3000⟩]))).1 "BTC" =
      some { symbol := "BTC", perp_asset_id := 0, spot_asset_id := 10005,
             funding_rate := annualize (1/1000), mark_price := 50000,
             size_decimals := 3 } ∧
    dictGet? (get_funding_opportunities
        [("BTC", { symbol := "BTC", perp_asset_id := 0, spot_asset_id := 10005,
                   funding_rate := 0, mark_price := 0, size_decimals := 3 })]
        (some (["BTC", "ETH"], [⟨1/1000, 50000⟩, ⟨1/100, 3000⟩]))).1 "ETH" = none :=
  ⟨(c8_refresh_annualizes_in_place
      [("BTC", { symbol := "BTC", perp_asset_id := 0, spot_asset_id := 10005,
                 funding_rate := 0, mark_price := 0, size_decimals := 3 })]
      ["BTC", "ETH"] [⟨1/1000, 50000⟩, ⟨1/100, 3000⟩] (by decide) (by decide)).1
      "BTC" ⟨1/1000, 50000⟩ (by exact List.mem_cons_self _ _)
      { symbol := "BTC", perp_asset_id := 0, spot_asset_id := 10005,
        funding_rate := 0, mark_price := 0, size_decimals := 3 } rfl,
   (c8_refresh_annualizes_in_place
      [("BTC", { symbol := "BTC", perp_asset_id := 0, spot_asset_id := 10005,
                 funding_rate := 0, mark_price := 0, size_decimals := 3 })]
      ["BTC", "ETH"] [⟨1/1000, 50000⟩, ⟨1/100, 3000⟩] (by decide) (by decide)).2.1
      "ETH" rfl⟩

/-! ### Control-loop lemmas -/

theorem execute_funding_arb_nodup (cfg : Config) (positions : Dict Position)
    (market : Market) (fr : ℚ) (place : OrderRequest → OrderResult) (now : ℕ)
    (h : (positions.map Prod.fst).Nodup) :
    (((execute_funding_arb cfg positions market fr place now).2.2).map Prod.fst).Nodup := by
  rcases execute_funding_arb_cases cfg positions market fr place now with
    ⟨_, heq⟩ | ⟨_, _, heq⟩ | ⟨_, _, _, heq⟩ | ⟨_, _, _, heq⟩ | ⟨_, _, _, heq⟩ <;> rw [heq]
  · exact h
  · exact h
  · exact h
  · exact h
  · exact nodup_dictInsert _ _ _ h

theorem loopGo_mem_acc (cfg : Config) (place : OrderRequest → OrderResult) (now : ℕ) :
    ∀ (opps : List Opp) (pos : Dict Position) (acc : List (String × Dict Position)) x,
      x ∈ acc → x ∈ (loopGo cfg place now pos opps acc).2 := by
  intro opps
  induction opps with
  | nil => intro pos acc x hx; exact hx
  | cons opp rest ih =>
    intro pos acc x hx
    rw [loopGo]
    split
    · exact ih _ _ _ (List.mem_append_left _ hx)
    · exact ih _ _ _ hx

theorem loopGo_attempts_unheld (cfg : Config) (place : OrderRequest → OrderResult)
    (now : ℕ) :
    ∀ (opps : List Opp) (pos : Dict Position) (acc : List (String × Dict Position)),
      (∀ p ∈ acc, dictGet? p.2 p.1 = none) →
      ∀ p ∈ (loopGo cfg place now pos opps acc).2, dictGet? p.2 p.1 = none := by
  intro opps
  induction opps with
  | nil => intro pos acc hacc p hp; exact hacc p hp
  | cons opp rest ih =>
    intro pos acc hacc p hp
    rw [loopGo] at hp
    by_cases hcond : cfg.min_funding_rate ≤ |opp.funding_rate| ∧
        dictGet? pos opp.symbol = none
    · rw [if_pos hcond] at hp
      refine ih _ _ ?_ p hp
      intro q hq
      rcases List.mem_append.1 hq with h1 | h2
      · exact hacc q h1
      · have hq2 := List.mem_singleton.1 h2
        subst hq2
        exact hcond.2
    · rw [if_neg hcond] at hp
      exact ih _ _ hacc p hp

theorem loopGo_nodup (cfg : Config) (place : OrderRequest → OrderResult) (now : ℕ) :
    ∀ (opps : List Opp) (pos : Dict Position) (acc : List (String × Dict Position)),
      (pos.map Prod.fst).Nodup →
      (((loopGo cfg place now pos opps acc).1).map Prod.fst).Nodup := by
  intro opps
  induction opps with
  | nil => intro pos acc h; exact h
  | cons opp rest ih =>
    intro pos acc h
    rw [loopGo]
    split
    · exact ih _ _ (execute_funding_arb_nodup _ _ _ _ _ _ h)
    · exact ih _ _ h

/-! ### Claim C4: no duplicate hedge per underlying -/

/-- C4: whenever the control loop's opportunity scan invokes
`execute_funding_arb` for a symbol, that symbol is absent from the
active-positions ledger at the moment of invocation; and the ledger
never acquires two entries for the same underlying (distinct keys are
preserved). -/
theorem c4_no_duplicate_hedge (cfg : Config) (positions : Dict Position)
    (opps : List Opp) (place : OrderRequest → OrderResult) (now : ℕ) :
    (∀ p ∈ (loopBody cfg positions opps place now).2, dictGet? p.2 p.1 = none) ∧
    ((positions.map Prod.fst).Nodup →
      (((loopBody cfg positions opps place now).1).map Prod.fst).Nodup) := by
  constructor
  · exact loopGo_attempts_unheld cfg place now opps positions [] (by simp)
  · intro h
    exact loopGo_nodup cfg place now opps positions [] h

/-- Witness for C4: a concrete cycle over one BTC opportunity starting
from an empty ledger — every attempt is for an unheld symbol and the
resulting ledger keys stay distinct. -/
theorem c4_no_duplicate_hedge_witness :
    (∀ p ∈ (loopBody defaultConfig []
        [{ symbol := "BTC", funding_rate := 73/2, mark_price := 50000,
           market := btcMarket }] placeAllOk 0).2, dictGet? p.2 p.1 = none) ∧
    (((loopBody defaultConfig []
        [{ symbol := "BTC", funding_rate := 73/2, mark_price := 50000,
           market := btcMarket }] placeAllOk 0).1).map Prod.fst).Nodup :=
  ⟨(c4_no_duplicate_hedge defaultConfig []
      [{ symbol := "BTC", funding_rate := 73/2, mark_price := 50000,
         market := btcMarket }] placeAllOk 0).1,
   (c4_no_duplicate_hedge defaultConfig []
      [{ symbol := "BTC", funding_rate := 73/2, mark_price := 50000,
         market := btcMarket }] placeAllOk 0).2 (by simp)⟩

/-! ### Claim C5: the threshold is in percent units -/

/-- The absolute annualized value of the raw rate 0.000002. -/
theorem annualize_example_abs : |annualize (2/1000000)| = 73/1000 := by
  have h : annualize ((2:ℚ)/1000000) = 73/1000 := by norm_num [annualize]
  rw [h]
  exact abs_of_pos (by norm_num)

/-- C5: annualized rates are percent values compared directly with
`min_funding_rate`, so under the default configuration every unheld
opportunity with absolute annualized rate at least 0.05 triggers a hedge
attempt; a raw per-period rate of 0.000002 annualizes to 0.073, which
qualifies even though it is far below an actual 5 (percent APR). -/
theorem c5_threshold_percent_units (pos : Dict Position) (rest : List Opp)
    (place : OrderRequest → OrderResult) (now : ℕ) (opp : Opp)
    (hheld : dictGet? pos opp.symbol = none)
    (hrate : defaultConfig.min_funding_rate ≤ |opp.funding_rate|) :
    (opp.symbol, pos) ∈ (loopBody defaultConfig pos (opp :: rest) place now).2 ∧
    annualize (2/1000000) = 73/1000 ∧
    defaultConfig.min_funding_rate ≤ |annualize (2/1000000)| ∧
    ¬(5 ≤ |annualize (2/1000000)|) := by
  refine ⟨?_, by norm_num [annualize],
    by rw [annualize_example_abs]; norm_num [defaultConfig],
    by rw [annualize_example_abs]; norm_num⟩
  rw [loopBody, loopGo, if_pos ⟨hrate, hheld⟩]
  exact loopGo_mem_acc defaultConfig place now rest _ _ _ (by simp)

/-- Witness for C5: a not-yet-held market "X" with raw funding rate
0.000002 per period (annualized 0.073) is hedged under the defaults. -/
theorem c5_threshold_percent_units_witness :
    ("X", ([] : Dict Position)) ∈
      (loopBody defaultConfig []
        [{ symbol := "X", funding_rate := annualize (2/1000000), mark_price := 50000,
           market := btcMarket }] placeAllOk 0).2 ∧
    annualize (2/1000000) = 73/1000 ∧
    defaultConfig.min_funding_rate ≤ |annualize (2/1000000)| ∧
    ¬(5 ≤ |annualize (2/1000000)|) :=
  c5_threshold_percent_units [] [] placeAllOk 0
    { symbol := "X", funding_rate := annualize (2/1000000), mark_price := 50000,
      market := btcMarket } rfl
    (by
      show defaultConfig.min_funding_rate ≤ |annualize (2/1000000)|
      rw [annualize_example_abs]
      norm_num [defaultConfig])

end HyperliquidArb
